import Mathlib

/-!
Shallow embedding of the message fan-out broker in
`core/lib/src/message/broker.rs` and `core/lib/src/message/mod.rs`.

Messages are opaque payloads (modelled as natural numbers), a `Receiver` is
the consumer end of a `futures_channel::mpsc` unbounded FIFO queue, a `Sink`
is one `hyper::Upgraded` outbound connection handle kept in the shared
`upgrades` registry, and `Broker` owns the receiver list plus the registry.
-/

/-- Opaque application payload (`Message` in `message/mod.rs`); the broker
never inspects its content, so a natural number suffices. -/
abbrev Message := Nat

/-- Mirror of `futures_channel::mpsc::TryRecvError`: the queue is currently
empty but some `Sender` is still alive. -/
inductive TryRecvError where
  | empty
deriving DecidableEq, Repr

/-- Consumer end of one unbounded FIFO channel
(`futures_channel::mpsc::UnboundedReceiver<Message>`): the buffered messages
in enqueue order plus whether every `Sender` has been dropped. -/
structure Receiver where
  queue : List Message
  closed : Bool
deriving DecidableEq, Repr

/-- Semantics of `UnboundedReceiver::try_next`: `Ok(Some(m))` pops the head
message; `Ok(None)` signals a drained, closed channel; `Err(_)` signals an
open channel with no message ready. Returns the updated receiver. -/
def Receiver.try_next (r : Receiver) : Except TryRecvError (Option Message) × Receiver :=
  match r.queue with
  | m :: rest => (Except.ok (some m), { r with queue := rest })
  | [] => if r.closed then (Except.ok none, r) else (Except.error TryRecvError.empty, r)

/-- A receiver is exhausted once every sender is dropped and its buffer is
drained. -/
def Receiver.exhausted (r : Receiver) : Bool :=
  r.closed && r.queue.isEmpty

/-- One `Arc<Mutex<hyper::Upgraded>>` outbound connection handle: an identity
plus whether writes on its transport currently fail. -/
structure Sink where
  id : Nat
  failing : Bool
deriving DecidableEq, Repr

/-- Debug-serialization `format!("{:?}", msg)` of the opaque payload; the
payload type's formatting lives outside the broker, so it is kept as the
payload itself. Each dispatched write applies it once. -/
def serialize (m : Message) : Message := m

/-- One write task spawned by `Broker::send_message`: the target sink and the
serialized payload handed to `write_all`. -/
structure Write where
  sink : Sink
  payload : Message
deriving DecidableEq, Repr

/-- State of the broker (`struct Broker`): the shared `upgrades` registry
contents and the owned receiver list. -/
structure Broker where
  upgrades : List Sink
  receivers : List Receiver
deriving DecidableEq, Repr

/-- Mirror of `Broker::new`: given the shared registry, no receivers. -/
def Broker.new (upgrades : List Sink) : Broker :=
  { upgrades := upgrades, receivers := [] }

/-- Mirror of `Broker::empty`: fresh empty registry, no receivers. -/
def Broker.empty : Broker :=
  { upgrades := [], receivers := [] }

/-- Mirror of `Broker::extend_with`: `self.receivers.extend(receivers)`. -/
def Broker.extend_with (b : Broker) (receivers : List Receiver) : Broker :=
  { b with receivers := b.receivers ++ receivers }

/-- Mirror of `Broker::send_message`: lock the `upgrades` registry and, for
each registered connection, serialize the message (the `format!` sits inside
the loop, one invocation per sink) and spawn one write task for it. The
returned list records the dispatched writes in registry order. -/
def Broker.send_message (upgrades : List Sink) (msg : Message) : List Write :=
  upgrades.map fun u => { sink := u, payload := serialize msg }

/-- Outcome of one spawned write task. -/
inductive WriteResult where
  | ok (sink : Sink)
  | failed (sink : Sink)
deriving DecidableEq, Repr

/-- Semantics of `upgraded.write_all(payload)` on one sink: fails exactly when
the sink's transport is failing. -/
def writeAll (w : Write) : WriteResult :=
  if w.sink.failing then WriteResult.failed w.sink else WriteResult.ok w.sink

/-- Observable effects of executing every write task of one broadcast. -/
structure BroadcastEffects where
  results : List WriteResult
  registryAfter : List Sink
  reports : List Nat
deriving DecidableEq, Repr

/-- Execution of the tasks spawned by `Broker::send_message`: each task runs
`write_all` and discards the outcome (`.map(|_| ())`, the `TODO: handle error
correctly` site), so the registry is left as it was and no failure report
with a sink id is ever emitted. -/
def runBroadcast (upgrades : List Sink) (msg : Message) : BroadcastEffects :=
  { results := (Broker.send_message upgrades msg).map writeAll
    registryAfter := upgrades
    reports := [] }

/-- Mirror of `futures_core::Poll`. -/
inductive Poll (α : Type) where
  | ready (v : α)
  | pending
deriving DecidableEq, Repr

/-- The `for receiver in broker.receivers.iter_mut()` scan of
`Broker::poll_next`: starting at index 0 on every call, `try_next` each
receiver; on `Err` continue, on `Ok(None)` the `if let Some(msg)` fails and
the loop continues with the receiver left in place, on `Ok(Some(m))` stop.
Returns the selected index, the dequeued message and the updated receiver
list, or `none` when the loop falls through. -/
def scanReceivers : List Receiver → Option (Nat × Message × List Receiver)
  | [] => none
  | r :: rs =>
    match r.try_next with
    | (Except.ok (some m), r1) => some (0, m, r1 :: rs)
    | (_, r1) =>
      match scanReceivers rs with
      | some (i, m, rs1) => some (i + 1, m, r1 :: rs1)
      | none => none

/-- Observable outcome of one advancement of the broker stream. -/
structure PollStep where
  result : Poll (Option Unit)
  dequeued : Option (Nat × Message)
  broker : Broker
deriving DecidableEq, Repr

/-- Mirror of `<Broker as Stream>::poll_next`: scan the receivers from the
front; when a message is found, spawn its broadcast and return
`Poll::Ready(Some(()))`; when the loop falls through, the final line still
returns `Poll::Ready(Some(()))` (the `TODO: the stream never is pending`
site). `dequeued` records which receiver was serviced, if any. -/
def Broker.poll_next (b : Broker) : PollStep :=
  match scanReceivers b.receivers with
  | some (i, m, rs) =>
    { result := Poll.ready (some ())
      dequeued := some (i, m)
      broker := { b with receivers := rs } }
  | none =>
    { result := Poll.ready (some ())
      dequeued := none
      broker := b }

/-- Advancement of the broker stream `n` times, collecting the dequeued
(receiver index, message) dispatches in order together with the final broker
state. -/
def runPolls : Broker → Nat → List (Nat × Message) × Broker
  | b, 0 => ([], b)
  | b, n + 1 =>
    let s := b.poll_next
    let p := runPolls s.broker n
    (s.dequeued.toList ++ p.1, p.2)

/-- Messages dispatched from receiver `i`, in dispatch order. -/
def dispatchesFrom (i : Nat) (ds : List (Nat × Message)) : List Message :=
  ds.filterMap fun p => if p.1 = i then some p.2 else none

/-- Fire-and-forget write tasks: `tokio::spawn` imposes no completion order
between distinct spawned tasks, so the order in which one sink observes the
writes dispatched to it is any permutation of the dispatch order. -/
def sinkObservable (dispatched observed : List Message) : Prop :=
  dispatched.Perm observed

instance (d o : List Message) : Decidable (sinkObservable d o) :=
  inferInstanceAs (Decidable (d.Perm o))

/-- Events on the shared `upgrades` registry. Registration and removal are
performed by the external upgrade collaborator, whose code is not part of the
broker sources. Modelled from the spec: `register(sink)` inserts a new sink,
`unregister(sink_id)` removes by id and is idempotent, and a broadcast
dispatches `Broker::send_message` on the membership at that instant. -/
inductive RegistryEvent where
  | register (s : Sink)
  | unregister (sid : Nat)
  | broadcast (m : Message)
deriving DecidableEq, Repr

/-- One registry event applied to (membership, log of per-message dispatched
writes). -/
def registryStep : List Sink × List (Message × List Write) → RegistryEvent →
    List Sink × List (Message × List Write)
  | (reg, log), RegistryEvent.register s => (reg ++ [s], log)
  | (reg, log), RegistryEvent.unregister sid => (reg.filter (fun s => s.id ≠ sid), log)
  | (reg, log), RegistryEvent.broadcast m => (reg, log ++ [(m, Broker.send_message reg m)])

/-- History of registry mutations and broadcasts from the empty registry. -/
def runRegistry (events : List RegistryEvent) : List Sink × List (Message × List Write) :=
  events.foldl registryStep ([], [])

/-! Claim theorems. -/

/-- C1: the spec claims each advancement selects the next ready receiver by
round-robin, the scan resuming after the last-serviced receiver, so that over
a window of N ≥ 2×(active receivers) dequeues no pending receiver is skipped
more than once consecutively. The code scans from index 0 on every call
(`TODO: ensure round robbing`): with receiver 0 holding four messages and
receiver 1 holding one, all four advancements of a 4-dequeue window service
receiver 0 and receiver 1 is left pending throughout. -/
theorem C1_scan_ignores_round_robin :
    (runPolls (Broker.mk [] [⟨[10, 11, 12, 13], false⟩, ⟨[20], false⟩]) 4).1
        = [(0, 10), (0, 11), (0, 12), (0, 13)]
      ∧ (runPolls (Broker.mk [] [⟨[10, 11, 12, 13], false⟩, ⟨[20], false⟩]) 4).2.receivers
        = [⟨[], false⟩, ⟨[20], false⟩] := by
  decide

/-- C2: the spec claims that with no ready message the broker suspends
(returns pending) until woken. The code's `poll_next` returns
`Poll::Ready(Some(()))` on every path — the stream is never pending, for any
broker state whatsoever (`TODO: the stream never is pending and therefore
eats a full cpu core`). -/
theorem C2_poll_never_pending (b : Broker) :
    b.poll_next.result = Poll.ready (some ()) := by
  unfold Broker.poll_next
  cases scanReceivers b.receivers with
  | none => rfl
  | some t => rfl

/-- C8: the spec claims an advancement that dequeues no message produces no
delivery event. On a broker whose single receiver is open but empty, the code
dequeues nothing yet still yields `Poll::Ready(Some(()))` — a delivery event
with no message behind it. -/
theorem C8_idle_poll_yields_event :
    (Broker.mk [] [⟨[], false⟩]).poll_next.dequeued = none
      ∧ (Broker.mk [] [⟨[], false⟩]).poll_next.result = Poll.ready (some ()) := by
  decide

/-- C5: the spec claims the run sequence terminates exactly when the active
receiver set is permanently empty. Starting from `Broker::empty` (no receiver
will ever be attached), every advancement leaves the broker unchanged and
still yields `Poll::Ready(Some(()))`: the stream never ends. -/
theorem C5_empty_broker_never_terminates (n : Nat) :
    (runPolls Broker.empty n).2 = Broker.empty
      ∧ Broker.empty.poll_next.result = Poll.ready (some ())
      ∧ Broker.empty.poll_next.dequeued = none := by
  refine ⟨?_, rfl, rfl⟩
  induction n with
  | zero => rfl
  | succ k ih => exact ih

/-- C3: the spec claims a failing sink's write leaves the other sinks'
deliveries intact and the broker alive (which holds), but also that the
failing sink is unregistered and a `{sink_id, error_kind}` report emitted.
The code discards the `write_all` outcome (`TODO: handle error correctly`):
with sinks A, C healthy and B failing, A and C succeed, yet B stays in the
registry, is targeted again by the next broadcast, and no report is
emitted. -/
theorem C3_write_failure_ignored :
    runBroadcast [⟨0, false⟩, ⟨1, true⟩, ⟨2, false⟩] 7
        = { results := [WriteResult.ok ⟨0, false⟩, WriteResult.failed ⟨1, true⟩,
                        WriteResult.ok ⟨2, false⟩]
            registryAfter := [⟨0, false⟩, ⟨1, true⟩, ⟨2, false⟩]
            reports := [] }
      ∧ (Broker.send_message
            (runBroadcast [⟨0, false⟩, ⟨1, true⟩, ⟨2, false⟩] 7).registryAfter 8).map Write.sink
          = [⟨0, false⟩, ⟨1, true⟩, ⟨2, false⟩] := by
  decide

/-- C9: one broadcast of message m over registry snapshot S dispatches
exactly one write per sink of S, in order, each carrying its own
serialization of m (the `format!` call sits inside the per-sink loop). -/
theorem C9_one_write_per_sink (S : List Sink) (m : Message) :
    (Broker.send_message S m).map Write.sink = S
      ∧ (Broker.send_message S m).length = S.length
      ∧ ∀ w ∈ Broker.send_message S m, w.payload = serialize m := by
  refine ⟨?_, ?_, ?_⟩
  · induction S with
    | nil => rfl
    | cons s ss ih => simpa [Broker.send_message] using ih
  · simp [Broker.send_message]
  · simp [Broker.send_message]

/-- C10: `extend_with` appends the new receivers after the existing ones —
the old receivers form the unchanged prefix — and leaves the `upgrades`
registry field untouched. -/
theorem C10_extend_with_appends (b : Broker) (rs : List Receiver) :
    (b.extend_with rs).receivers = b.receivers ++ rs
      ∧ (b.extend_with rs).upgrades = b.upgrades
      ∧ (b.extend_with rs).receivers.take b.receivers.length = b.receivers := by
  refine ⟨rfl, rfl, ?_⟩
  simp [Broker.extend_with]

/-! Structural lemmas about the receiver scan and the registry history. -/

/-- With a message buffered, the scan selects the head receiver at once. -/
lemma scanReceivers_cons_ready (r : Receiver) (rs : List Receiver) (a : Message)
    (as : List Message) (hq : r.queue = a :: as) :
    scanReceivers (r :: rs) = some (0, a, { r with queue := as } :: rs) := by
  cases r with
  | mk q c => cases hq; rfl

/-- With an empty buffer (open or closed), the scan moves on to the tail,
leaving the receiver in place and shifting the selected index. -/
lemma scanReceivers_cons_skip (r : Receiver) (rs : List Receiver) (hq : r.queue = []) :
    scanReceivers (r :: rs)
      = match scanReceivers rs with
        | some (i, m, rs1) => some (i + 1, m, r :: rs1)
        | none => none := by
  cases r with
  | mk q c => cases hq; cases c <;> rfl

/-- A successful scan dequeues the head of receiver `i`'s queue and leaves
every other receiver untouched: the new list is a single `set` at `i`. -/
lemma scanReceivers_some : ∀ {rs : List Receiver} {i : Nat} {m : Message}
    {rs1 : List Receiver}, scanReceivers rs = some (i, m, rs1) →
    ∃ r : Receiver, rs[i]? = some r ∧ r.queue.head? = some m
      ∧ rs1 = rs.set i { r with queue := r.queue.tail } := by
  intro rs
  induction rs with
  | nil => intro i m rs1 h; simp [scanReceivers] at h
  | cons r rs ih =>
    intro i m rs1 h
    rcases hq : r.queue with _ | ⟨a, as⟩
    · rw [scanReceivers_cons_skip r rs hq] at h
      rcases hs : scanReceivers rs with _ | ⟨⟨j, m2, rs2⟩⟩
      · rw [hs] at h; exact absurd h (by simp)
      · rw [hs] at h
        simp only [Option.some.injEq, Prod.mk.injEq] at h
        obtain ⟨hi, hm, hrs⟩ := h
        obtain ⟨r2, hg, hh, hset⟩ := ih hs
        refine ⟨r2, ?_, by rw [← hm]; exact hh, ?_⟩
        · rw [← hi]; simpa using hg
        · rw [← hrs, ← hi, hset]; rfl
    · rw [scanReceivers_cons_ready r rs a as hq] at h
      simp only [Option.some.injEq, Prod.mk.injEq] at h
      obtain ⟨hi, hm, hrs⟩ := h
      refine ⟨r, by rw [← hi]; simp, by rw [hq, ← hm]; rfl, ?_⟩
      rw [← hrs, ← hi, hq]
      rfl

/-- A failed scan means every receiver's buffer is empty. -/
lemma scanReceivers_none : ∀ {rs : List Receiver}, scanReceivers rs = none →
    ∀ r ∈ rs, r.queue = [] := by
  intro rs
  induction rs with
  | nil => intro _ r hr; cases hr
  | cons r rs ih =>
    intro h r2 hr2
    rcases hq : r.queue with _ | ⟨a, as⟩
    · rw [scanReceivers_cons_skip r rs hq] at h
      rcases hs : scanReceivers rs with _ | ⟨⟨j, m2, rs2⟩⟩
      · rcases List.mem_cons.mp hr2 with h2 | h2
        · rw [h2]; exact hq
        · exact ih hs r2 h2
      · rw [hs] at h; exact absurd h (by simp)
    · rw [scanReceivers_cons_ready r rs a as hq] at h
      exact absurd h (by simp)

/-- An advancement whose scan falls through leaves the broker unchanged. -/
lemma poll_next_of_scan_none {b : Broker} (h : scanReceivers b.receivers = none) :
    b.poll_next = { result := Poll.ready (some ()), dequeued := none, broker := b } := by
  unfold Broker.poll_next
  rw [h]

/-- An advancement whose scan selects `(i, m, rs1)` records that dequeue and
installs the updated receiver list. -/
lemma poll_next_of_scan_some {b : Broker} {i : Nat} {m : Message} {rs1 : List Receiver}
    (h : scanReceivers b.receivers = some (i, m, rs1)) :
    b.poll_next = { result := Poll.ready (some ())
                    dequeued := some (i, m)
                    broker := { b with receivers := rs1 } } := by
  unfold Broker.poll_next
  rw [h]

lemma runPolls_succ (b : Broker) (k : Nat) :
    runPolls b (k + 1)
      = (b.poll_next.dequeued.toList ++ (runPolls b.poll_next.broker k).1,
         (runPolls b.poll_next.broker k).2) := rfl

lemma runPolls_succ_none {b : Broker} (h : scanReceivers b.receivers = none) (k : Nat) :
    runPolls b (k + 1) = runPolls b k := by
  rw [runPolls_succ, poll_next_of_scan_none h]
  simp

lemma runPolls_succ_some {b : Broker} {j : Nat} {m : Message} {rs1 : List Receiver}
    (h : scanReceivers b.receivers = some (j, m, rs1)) (k : Nat) :
    runPolls b (k + 1)
      = ((j, m) :: (runPolls { b with receivers := rs1 } k).1,
         (runPolls { b with receivers := rs1 } k).2) := by
  rw [runPolls_succ, poll_next_of_scan_some h]
  simp

lemma dispatchesFrom_nil (i : Nat) : dispatchesFrom i [] = [] := rfl

lemma dispatchesFrom_cons_self (i : Nat) (m : Message) (ds : List (Nat × Message)) :
    dispatchesFrom i ((i, m) :: ds) = m :: dispatchesFrom i ds := by
  simp [dispatchesFrom]

lemma dispatchesFrom_cons_ne {j i : Nat} (h : j ≠ i) (m : Message)
    (ds : List (Nat × Message)) :
    dispatchesFrom i ((j, m) :: ds) = dispatchesFrom i ds := by
  simp [dispatchesFrom, h]

/-- Running the stream decomposes each receiver's original buffer into the
messages dispatched from it (in order) followed by its remaining buffer; the
closed flag never changes. -/
lemma runPolls_decomp : ∀ (n : Nat) (b : Broker) (i : Nat) (r : Receiver),
    b.receivers[i]? = some r →
    ∃ r1 : Receiver, (runPolls b n).2.receivers[i]? = some r1
      ∧ r1.closed = r.closed
      ∧ r.queue = dispatchesFrom i (runPolls b n).1 ++ r1.queue := by
  intro n
  induction n with
  | zero =>
    intro b i r h
    exact ⟨r, h, rfl, by simp [runPolls, dispatchesFrom]⟩
  | succ k ih =>
    intro b i r h
    rcases hscan : scanReceivers b.receivers with _ | ⟨⟨j, m, rs1⟩⟩
    · rw [runPolls_succ_none hscan]
      exact ih b i r h
    · obtain ⟨r2, hr2, hh, hset⟩ := scanReceivers_some hscan
      rw [runPolls_succ_some hscan]
      by_cases hij : j = i
      · subst hij
        have hr : r2 = r := by
          rw [h] at hr2
          exact (Option.some.inj hr2).symm
        subst hr
        have hlt : j < b.receivers.length := (List.getElem?_eq_some.mp h).1
        have hib : rs1[j]? = some { r2 with queue := r2.queue.tail } := by
          rw [hset]
          exact List.getElem?_set_self hlt
        obtain ⟨r1, h1, h2, h3⟩ := ih { b with receivers := rs1 } j _ hib
        have hqr : r2.queue = m :: r2.queue.tail :=
          List.eq_cons_of_mem_head? hh
        refine ⟨r1, h1, h2, ?_⟩
        rw [dispatchesFrom_cons_self, hqr]
        exact congrArg (List.cons m) h3
      · have hib : rs1[i]? = some r := by
          rw [hset, List.getElem?_set_ne hij]
          exact h
        obtain ⟨r1, h1, h2, h3⟩ := ih { b with receivers := rs1 } i r hib
        refine ⟨r1, h1, h2, ?_⟩
        rw [dispatchesFrom_cons_ne hij]
        exact h3

/-- The per-message write log of a registry history is append-only: later
events never rewrite an entry already logged. -/
lemma registry_log_extend : ∀ (fs : List RegistryEvent) (reg : List Sink)
    (log : List (Message × List Write)),
    ∃ tl, (fs.foldl registryStep (reg, log)).2 = log ++ tl := by
  intro fs
  induction fs with
  | nil => intro reg log; exact ⟨[], by simp⟩
  | cons f fs ih =>
    intro reg log
    cases f with
    | register s =>
      obtain ⟨tl, h⟩ := ih (reg ++ [s]) log
      exact ⟨tl, by simpa [registryStep] using h⟩
    | unregister sid =>
      obtain ⟨tl, h⟩ := ih (reg.filter fun s => s.id ≠ sid) log
      exact ⟨tl, by simpa [registryStep] using h⟩
    | broadcast m =>
      obtain ⟨tl, h⟩ := ih reg (log ++ [(m, Broker.send_message reg m)])
      exact ⟨(m, Broker.send_message reg m) :: tl, by simpa [registryStep] using h⟩

/-- A broadcast started at membership `R` logs exactly the writes of
`send_message R m`, whatever registry mutations follow it. -/
lemma broadcast_snapshot (R : List Sink) (L : List (Message × List Write))
    (post : List RegistryEvent) (m : Message) :
    (post.foldl registryStep (registryStep (R, L) (RegistryEvent.broadcast m))).2[L.length]?
      = some (m, Broker.send_message R m) := by
  obtain ⟨tl, h⟩ := registry_log_extend post R (L ++ [(m, Broker.send_message R m)])
  rw [show registryStep (R, L) (RegistryEvent.broadcast m)
        = (R, L ++ [(m, Broker.send_message R m)]) from rfl]
  rw [h, List.append_assoc, List.getElem?_append_right (le_refl L.length)]
  simp

/-- One dispatched write per registered sink, in registry order. -/
lemma send_message_sinks (S : List Sink) (m : Message) :
    (Broker.send_message S m).map Write.sink = S := by
  induction S with
  | nil => rfl
  | cons s ss ih => simpa [Broker.send_message] using ih

/-- C6: the broadcast of a message reaches exactly the sinks present in the
registry at the instant the broadcast begins. Over any event history
`pre ++ [broadcast m] ++ post`, the entry logged for that broadcast carries
precisely one write per sink of the membership reached after `pre`, and no
later registration or removal in `post` alters it — so a sink registered
after the broadcast begins is never sent this message, and a sink removed
afterwards keeps its already-dispatched write but leaves later snapshots. -/
theorem C6_broadcast_targets_snapshot (pre post : List RegistryEvent) (m : Message) :
    (runRegistry (pre ++ RegistryEvent.broadcast m :: post)).2[(runRegistry pre).2.length]?
        = some (m, Broker.send_message (runRegistry pre).1 m)
      ∧ (Broker.send_message (runRegistry pre).1 m).map Write.sink = (runRegistry pre).1 := by
  constructor
  · have h1 : runRegistry (pre ++ RegistryEvent.broadcast m :: post)
        = post.foldl registryStep (registryStep (runRegistry pre) (RegistryEvent.broadcast m)) := by
      simp [runRegistry, List.foldl_append]
    rw [h1]
    exact broadcast_snapshot (runRegistry pre).1 (runRegistry pre).2 post m
  · exact send_message_sinks (runRegistry pre).1 m

/-- C4 counterexample: with receiver 0 exhausted (closed, drained) and
receiver 1 holding message 5, the advancement scans past receiver 0 and
dequeues from receiver 1, yet the exhausted receiver is still in the set
afterwards — it is not removed, contrary to the claim. -/
theorem C4_counterexample_exhausted_not_removed :
    (Broker.mk [] [⟨[], true⟩, ⟨[5], false⟩]).poll_next.dequeued = some (1, 5)
      ∧ (Broker.mk [] [⟨[], true⟩, ⟨[5], false⟩]).poll_next.broker.receivers
          = [⟨[], true⟩, ⟨[], false⟩]
      ∧ Receiver.exhausted ⟨[], true⟩ = true := by
  decide

/-- C4 (amended): a receiver found exhausted during the scan is skipped but
stays in the receiver set unchanged forever; no advancement ever dequeues
from it, and the broker keeps serving the remaining receivers — whenever any
receiver has a buffered message, the advancement still dequeues one, from an
index other than the exhausted one. -/
theorem C4_exhausted_skipped_in_place (b : Broker) (i : Nat) (r : Receiver)
    (h : b.receivers[i]? = some r) (hx : r.exhausted = true) (n : Nat) :
    (dispatchesFrom i (runPolls b n).1 = []
        ∧ (runPolls b n).2.receivers[i]? = some r)
      ∧ ((∃ (j : Nat) (r2 : Receiver), b.receivers[j]? = some r2 ∧ r2.queue ≠ []) →
          ∃ (j : Nat) (m : Message), b.poll_next.dequeued = some (j, m) ∧ j ≠ i) := by
  obtain ⟨hc, hq⟩ : r.closed = true ∧ r.queue = [] := by
    simpa [Receiver.exhausted] using hx
  constructor
  · obtain ⟨r1, h1, h2, h3⟩ := runPolls_decomp n b i r h
    rw [hq] at h3
    have hd : dispatchesFrom i (runPolls b n).1 = [] := by
      rcases List.append_eq_nil.mp h3.symm with ⟨ha, _⟩
      exact ha
    refine ⟨hd, ?_⟩
    rcases List.append_eq_nil.mp h3.symm with ⟨_, hb⟩
    have : r1 = r := by
      cases r1 with
      | mk q1 c1 =>
        cases r with
        | mk q c =>
          simp only at h2 hb hq
          rw [h2, hb, hq]
    rw [← this]
    exact h1
  · rintro ⟨j, r2, hj, hne⟩
    rcases hscan : scanReceivers b.receivers with _ | ⟨⟨k, m, rs1⟩⟩
    · exact absurd (scanReceivers_none hscan r2 (List.getElem?_mem hj)) hne
    · refine ⟨k, m, by rw [poll_next_of_scan_some hscan], ?_⟩
      obtain ⟨r3, hr3, hh, _⟩ := scanReceivers_some hscan
      intro hki
      rw [hki, h] at hr3
      have : r3 = r := (Option.some.inj hr3).symm
      rw [this, hq] at hh
      exact absurd hh (by simp)

/-- C4 witness: on a broker whose receiver 0 is exhausted and whose
receiver 1 buffers message 7, two advancements dispatch nothing from
receiver 0, leave it in place, and the first advancement dequeues from a
different index. -/
theorem C4_exhausted_skipped_in_place_witness :
    (Broker.mk [] [⟨[], true⟩, ⟨[7], false⟩]).receivers[0]? = some ⟨[], true⟩
      ∧ Receiver.exhausted ⟨[], true⟩ = true
      ∧ ((dispatchesFrom 0 (runPolls (Broker.mk [] [⟨[], true⟩, ⟨[7], false⟩]) 2).1 = []
            ∧ (runPolls (Broker.mk [] [⟨[], true⟩, ⟨[7], false⟩]) 2).2.receivers[0]?
                = some ⟨[], true⟩)
          ∧ ((∃ (j : Nat) (r2 : Receiver),
                (Broker.mk [] [⟨[], true⟩, ⟨[7], false⟩]).receivers[j]? = some r2
                  ∧ r2.queue ≠ []) →
              ∃ (j : Nat) (m : Message),
                (Broker.mk [] [⟨[], true⟩, ⟨[7], false⟩]).poll_next.dequeued = some (j, m)
                  ∧ j ≠ 0)) :=
  ⟨by decide, by decide,
    C4_exhausted_skipped_in_place (Broker.mk [] [⟨[], true⟩, ⟨[7], false⟩]) 0 ⟨[], true⟩
      (by decide) (by decide) 2⟩

/-- C7 counterexample: receiver 0 enqueues a = 1 then b = 2, receiver 1
enqueues x = 3; three advancements dispatch the broadcasts in order
[1, 2, 3]. Each write, however, is a fire-and-forget `tokio::spawn` task with
no ordering between distinct tasks, so a sink may observe any permutation of
the dispatched writes: the admissible observation [2, 3, 1] shows b arriving
strictly before a, refuting the claim that any given sink observes b strictly
after a. -/
theorem C7_counterexample_sink_observation :
    (runPolls (Broker.mk [⟨0, false⟩] [⟨[1, 2], false⟩, ⟨[3], false⟩]) 3).1.map Prod.snd
        = [1, 2, 3]
      ∧ sinkObservable
          ((runPolls (Broker.mk [⟨0, false⟩] [⟨[1, 2], false⟩, ⟨[3], false⟩]) 3).1.map
            Prod.snd)
          [2, 3, 1]
      ∧ ([2, 3, 1] : List Message).indexOf 2 < ([2, 3, 1] : List Message).indexOf 1 := by
  decide

/-- C7 (amended): the messages of a single receiver are dequeued and their
broadcasts dispatched in exactly their enqueue order — over any number of
advancements, the dispatches drawn from receiver `i` form an initial segment
of its original queue — while the order in which a sink observes the
fire-and-forget writes is not constrained beyond being a permutation of the
dispatch order. -/
theorem C7_per_receiver_dispatch_fifo (b : Broker) (n i : Nat) (r : Receiver)
    (h : b.receivers[i]? = some r) :
    ∃ tail, r.queue = dispatchesFrom i (runPolls b n).1 ++ tail := by
  obtain ⟨r1, _, _, h3⟩ := runPolls_decomp n b i r h
  exact ⟨r1.queue, h3⟩

/-- C7 witness: in the a/b/x scenario, receiver 0's queue [1, 2] is exactly
its dispatched messages followed by the (empty) remainder. -/
theorem C7_per_receiver_dispatch_fifo_witness :
    (Broker.mk [⟨0, false⟩] [⟨[1, 2], false⟩, ⟨[3], false⟩]).receivers[0]?
        = some ⟨[1, 2], false⟩
      ∧ ∃ tail, (Receiver.mk [1, 2] false).queue
          = dispatchesFrom 0
              (runPolls (Broker.mk [⟨0, false⟩] [⟨[1, 2], false⟩, ⟨[3], false⟩]) 3).1 ++ tail :=
  ⟨by decide,
    C7_per_receiver_dispatch_fifo (Broker.mk [⟨0, false⟩] [⟨[1, 2], false⟩, ⟨[3], false⟩])
      3 0 ⟨[1, 2], false⟩ (by decide)⟩
